import Mathlib

/-
  Verification of the pipeit transaction-orchestration core.

  The development shallowly embeds the instruction-packing algorithm, the
  batching planner, the flow executor, and the TransactionBuilder of
  packages/tx-builder.  Components whose implementation files are not part
  of the available sources (the packer, size estimator, planner and flow
  executor) are modelled from the specification; their doc comments say so
  explicitly.  Everything else is translated from
  packages/tx-builder/src/builder/builder.ts and the flow type
  declarations.
-/

namespace Pipeit

/-- An on-chain instruction: program target, account list, binary payload.
Mirrors the shape used throughout the repository (programAddress, accounts,
data); the orchestration core treats it as an opaque value with a computable
size contribution. -/
structure Instruction where
  programAddress : String
  accounts : List Nat
  data : List Nat
deriving DecidableEq

/-- The protocol-defined maximum serialized transaction size in bytes
(TRANSACTION_SIZE_LIMIT re-exported by solana transactions and used by the
builder's getSizeInfo). -/
def sizeCeiling : Nat := 1232

/-- Modelled from the spec: the base transaction skeleton (fee payer and
lifetime already set) together with the external message-building and
size-estimation primitives.  Given the instruction list to be appended to
the skeleton, building returns the serialized byte length, or fails
(returns no size) when the trial construction itself fails, e.g. on an
inherently malformed instruction.  The spec treats buildMessage and
estimateSerializedSize as external collaborators, so the skeleton is kept
abstract as this build function. -/
structure Skeleton where
  build : List Instruction → Option Nat

/-- Modelled from the spec: the Size Estimator (spec 4.1), whose source
file is not among the available sources.  Constructs a trial message from
the skeleton plus committed instructions plus the candidate, and compares
the byte length against the ceiling; a failed trial construction is
conservatively treated as "does not fit". -/
def fits (skel : Skeleton) (committed : List Instruction) (candidate : Instruction) : Bool :=
  match skel.build (committed ++ [candidate]) with
  | none => false
  | some n => n ≤ sizeCeiling

/-- Modelled from the spec: the main loop of the Instruction Packer
(spec 4.2), whose source file (packages/tx-builder/src/packing) is not
among the available sources; builder.ts imports packInstructions from it.
Iterates the instructions in order keeping a running committed list; the
first instruction that does not fit sends itself and every later
instruction to overflow. -/
def packGo (skel : Skeleton) (committed : List Instruction) :
    List Instruction → List Instruction × List Instruction
  | [] => (committed, [])
  | i :: rest =>
    if fits skel committed i then packGo skel (committed ++ [i]) rest
    else (committed, i :: rest)

/-- Modelled from the spec: pack(baseSkeleton, instructions), the
prefix-greedy Instruction Packer contract of spec 4.2. -/
def pack (skel : Skeleton) (instructions : List Instruction) :
    List Instruction × List Instruction :=
  packGo skel [] instructions

/-- The committed list stays within the ceiling: the skeleton builds with
the given instructions and the size is at most the ceiling. -/
def sizeOk (skel : Skeleton) (instructions : List Instruction) : Prop :=
  ∃ n, skel.build instructions = some n ∧ n ≤ sizeCeiling

/-- The tag of a flow step, from the FlowStep union in
packages/tx-builder/src/flow/types.ts: instruction step, transaction step,
or atomic group. -/
inductive StepKind where
  | instruction
  | transaction
  | atomicGroup
deriving DecidableEq

/-- A pipeline step as the Batching Planner sees it: its unique name and
its kind.  From the FlowStep declarations in flow/types.ts. -/
structure PlanStep where
  name : String
  kind : StepKind
deriving DecidableEq

/-- The kind of an execution unit: a batch maps to one packed transaction,
a custom unit to one transaction step executed alone. -/
inductive UnitKind where
  | batch
  | custom
deriving DecidableEq

/-- Output element of the Batching Planner: an ordered list of step names
together with the unit kind. -/
structure ExecutionUnit where
  stepNames : List String
  kind : UnitKind
deriving DecidableEq

/-- The flow execution strategy, from ExecutionStrategy in flow/types.ts. -/
inductive ExecutionStrategy where
  | auto
  | batch
  | sequential
deriving DecidableEq

/-- Modelled from the spec: the sequential branch of the Batching Planner
(spec 4.3), whose source file is not among the available sources.  Every
step becomes its own ExecutionUnit: a singleton batch unit for an
instruction-producing step, a custom unit for a transaction step. -/
def planSequential : List PlanStep → List ExecutionUnit
  | [] => []
  | s :: rest =>
    (match s.kind with
     | .transaction => ExecutionUnit.mk [s.name] .custom
     | _ => ExecutionUnit.mk [s.name] .batch) :: planSequential rest

/-- Close the currently accumulated run of instruction-producing step names
into a batch unit (empty runs produce no unit). -/
def flushBatch (acc : List String) : List ExecutionUnit :=
  if acc = [] then [] else [ExecutionUnit.mk acc .batch]

/-- Modelled from the spec: the greedy-grouping branch of the Batching
Planner used for the batch and auto strategies (spec 4.3), whose source
file is not among the available sources.  Consecutive instruction-producing
steps (instruction steps and atomic groups) accumulate into one batch unit;
a transaction step closes the current run and becomes its own custom
unit. -/
def planBatchGo (acc : List String) : List PlanStep → List ExecutionUnit
  | [] => flushBatch acc
  | s :: rest =>
    match s.kind with
    | .transaction => flushBatch acc ++ ExecutionUnit.mk [s.name] .custom :: planBatchGo [] rest
    | _ => planBatchGo (acc ++ [s.name]) rest

/-- Modelled from the spec: plan(steps, strategy), the Batching Planner
contract of spec 4.3. -/
def plan (steps : List PlanStep) : ExecutionStrategy → List ExecutionUnit
  | .sequential => planSequential steps
  | _ => planBatchGo [] steps

/-- Concatenation of the stepNames of a unit list, in unit order. -/
def unitNames (units : List ExecutionUnit) : List String :=
  (units.map ExecutionUnit.stepNames).flatten

/-- The names of a step list, in order. -/
def stepNamesOf (steps : List PlanStep) : List String :=
  steps.map PlanStep.name

/-- The batch-grouping loop of batchGroups in
examples/next-js/components/pipeline/pipeline-visualization.tsx (lines
28-48): consecutive instruction steps accumulate into the current batch; a
non-instruction step flushes the batch; the final batch is flushed after
the loop. -/
def batchGroupsGo (currentBatch : List String) : List PlanStep → List (List String)
  | [] => if currentBatch = [] then [] else [currentBatch]
  | s :: rest =>
    match s.kind with
    | .instruction => batchGroupsGo (currentBatch ++ [s.name]) rest
    | _ => (if currentBatch = [] then [] else [currentBatch]) ++ batchGroupsGo [] rest

/-- batchGroups from pipeline-visualization.tsx (lines 22-51): sequential
strategy yields no batches; otherwise consecutive instruction steps are
grouped. -/
def batchGroups (strategy : ExecutionStrategy) (steps : List PlanStep) : List (List String) :=
  match strategy with
  | .sequential => []
  | _ => batchGroupsGo [] steps

/-- Modelled from the spec: incremental all-or-nothing sizing of one atomic
group (spec 4.2).  Each member is offered to the Size Estimator against the
running committed list; if every member fits the extended committed list is
returned, and if any member fails the whole attempt is discarded. -/
def tryGroup (skel : Skeleton) (committed : List Instruction) :
    List Instruction → Option (List Instruction)
  | [] => some committed
  | i :: rest =>
    if fits skel committed i then tryGroup skel (committed ++ [i]) rest
    else none

/-- What one instruction-producing step contributes to packing: a single
instruction or an atomic group of instructions, tagged with the step
name. -/
inductive PackItem where
  | single (ix : Instruction)
  | group (ixs : List Instruction)
deriving DecidableEq

/-- A step name paired with the instructions its creator(s) produced. -/
structure NamedIx where
  name : String
  item : PackItem
deriving DecidableEq

/-- The instructions of a step list, flattened in order. -/
def namedInstructions : List NamedIx → List Instruction
  | [] => []
  | s :: rest =>
    (match s.item with
     | .single i => [i]
     | .group g => g) ++ namedInstructions rest

/-- Modelled from the spec: the Instruction Packer applied to a unit's
steps, respecting atomic-group integrity (spec 4.2).  Returns the packed
instruction list, the consumed steps (whose instructions all fit), and the
overflow steps (the first step that did not fit and everything after it, in
original order; a partially fitting atomic group is discarded whole). -/
def packNamed (skel : Skeleton) (committed : List Instruction) :
    List NamedIx → List Instruction × List NamedIx × List NamedIx
  | [] => (committed, [], [])
  | s :: rest =>
    match s.item with
    | .single i =>
      if fits skel committed i then
        let r := packNamed skel (committed ++ [i]) rest
        (r.1, s :: r.2.1, r.2.2)
      else (committed, [], s :: rest)
    | .group g =>
      match tryGroup skel committed g with
      | some c2 =>
        let r := packNamed skel c2 rest
        (r.1, s :: r.2.1, r.2.2)
      | none => (committed, [], s :: rest)

/-- An execution unit as the Flow Executor consumes it: a batch unit
carrying its steps' instructions, or a custom transaction step. -/
inductive ExecUnit where
  | batchU (steps : List NamedIx)
  | customU (name : String)
deriving DecidableEq

/-- One submitted transaction: the covered step names and the packed
instruction list. -/
structure SubmittedTx where
  stepNames : List String
  instructions : List Instruction
deriving DecidableEq

/-- Lifecycle hook invocations recorded by the executor, in order. -/
inductive FlowEvent where
  | stepStart (name : String)
  | stepComplete (name : String) (signature : Nat)
  | stepError (name : String)
deriving DecidableEq

/-- Terminal status of a flow execution. -/
inductive FlowStatus where
  | success
  | packingOverflow
  | oversized
  | submissionFailed
deriving DecidableEq

/-- Result of running the planned units: the submitted transactions, the
hook events, and the terminal status. -/
structure FlowResult where
  txs : List SubmittedTx
  events : List FlowEvent
  status : FlowStatus
deriving DecidableEq

/-- Number of instructions carried by a unit (used as the executor's
termination measure). -/
def unitIxCount : ExecUnit → Nat
  | .customU _ => 0
  | .batchU steps => (namedInstructions steps).length

/-- Total instruction count plus unit count of a unit list. -/
def unitsMeasure (units : List ExecUnit) : Nat :=
  (units.map unitIxCount).sum + units.length

/-- Modelled from the spec: the Flow Executor loop (spec 4.4), whose source
file (flow/flow.ts) is not among the available sources.  Units run strictly
sequentially.  A batch unit fires onStepStart per step, packs its
instructions, and on clean packing submits one transaction; submission
success fires onStepComplete per step and continues, submission failure
fires onStepError for every uncompleted step of the unit and stops.
Non-empty overflow with an empty packed prefix is the fatal
oversized-single-instruction error under every strategy (spec 7); with a
non-empty prefix it is the fatal packing-overflow error under batch and
sequential, while under auto the packed prefix is submitted and the
overflow steps re-enter the loop as a freshly inserted next unit.  The
submission collaborator is abstracted as the submitOk oracle indexed by
submission count, and the submission count doubles as the signature. -/
def runUnits (skel : Skeleton) (strat : ExecutionStrategy) (submitOk : Nat → Bool) :
    List ExecUnit → Nat → List SubmittedTx → List FlowEvent → FlowResult
  | [], _, txs, evs => ⟨txs, evs, .success⟩
  | .customU n :: rest, sig, txs, evs =>
    if submitOk sig then
      runUnits skel strat submitOk rest (sig + 1) txs
        (evs ++ [.stepStart n, .stepComplete n sig])
    else ⟨txs, evs ++ [.stepStart n, .stepError n], .submissionFailed⟩
  | .batchU steps :: rest, sig, txs, evs =>
    if hovf : (packNamed skel [] steps).2.2 = [] then
      if submitOk sig then
        runUnits skel strat submitOk rest (sig + 1)
          (txs ++ [⟨steps.map NamedIx.name, (packNamed skel [] steps).1⟩])
          ((evs ++ steps.map (fun s => FlowEvent.stepStart s.name))
            ++ steps.map (fun s => FlowEvent.stepComplete s.name sig))
      else
        ⟨txs, (evs ++ steps.map (fun s => FlowEvent.stepStart s.name))
              ++ steps.map (fun s => FlowEvent.stepError s.name), .submissionFailed⟩
    else
      if hpk : (packNamed skel [] steps).1 = [] then
        ⟨txs, evs ++ steps.map (fun s => FlowEvent.stepStart s.name), .oversized⟩
      else
        if strat = .auto then
          if submitOk sig then
            runUnits skel strat submitOk
              (.batchU (packNamed skel [] steps).2.2 :: rest) (sig + 1)
              (txs ++ [⟨(packNamed skel [] steps).2.1.map NamedIx.name,
                        (packNamed skel [] steps).1⟩])
              ((evs ++ steps.map (fun s => FlowEvent.stepStart s.name))
                ++ (packNamed skel [] steps).2.1.map
                     (fun s => FlowEvent.stepComplete s.name sig))
          else
            ⟨txs, (evs ++ steps.map (fun s => FlowEvent.stepStart s.name))
                  ++ steps.map (fun s => FlowEvent.stepError s.name), .submissionFailed⟩
        else
          ⟨txs, evs ++ steps.map (fun s => FlowEvent.stepStart s.name), .packingOverflow⟩
termination_by units _ _ _ => unitsMeasure units
decreasing_by
  all_goals simp only [unitsMeasure, unitIxCount, List.map_cons, List.sum_cons, List.length_cons]
  · omega
  · omega
  · have hsplit : ∀ (c : List Instruction) (l : List NamedIx),
        (packNamed skel c l).2.1 ++ (packNamed skel c l).2.2 = l ∧
        (packNamed skel c l).1 = c ++ namedInstructions (packNamed skel c l).2.1 := by
      intro c l
      induction l generalizing c with
      | nil => simp [packNamed, namedInstructions]
      | cons s rest ih =>
        cases hs : s.item with
        | single i =>
          by_cases hf : fits skel c i
          · have h2 := ih (c ++ [i])
            simp [packNamed, hs, hf, namedInstructions, h2.1, h2.2]
          · simp [packNamed, hs, hf, namedInstructions]
        | group g =>
          cases ht : tryGroup skel c g with
          | none => simp [packNamed, hs, ht, namedInstructions]
          | some c2 =>
            have h2 := ih c2
            have hc2 : ∀ (cc : List Instruction) (gg : List Instruction) (r : List Instruction),
                tryGroup skel cc gg = some r → r = cc ++ gg := by
              intro cc gg
              induction gg generalizing cc with
              | nil => intro r hr; simp [tryGroup] at hr; simp [hr]
              | cons x xs ihg =>
                intro r hr
                by_cases hx : fits skel cc x
                · simp [tryGroup, hx] at hr
                  have := ihg (cc ++ [x]) r hr
                  simp [this]
                · simp [tryGroup, hx] at hr
            have hc3 := hc2 c g c2 ht
            subst hc3
            simp [packNamed, hs, ht, namedInstructions, h2.1, h2.2, List.append_assoc]
    have happ : ∀ (a b : List NamedIx),
        namedInstructions (a ++ b) = namedInstructions a ++ namedInstructions b := by
      intro a b
      induction a with
      | nil => simp [namedInstructions]
      | cons x xs ih => simp [namedInstructions, ih]
    obtain ⟨h1, h2⟩ := hsplit [] steps
    have h3 : namedInstructions steps
        = namedInstructions (packNamed skel [] steps).2.1
          ++ namedInstructions (packNamed skel [] steps).2.2 := by
      conv =>
        lhs
        rw [← h1]
      rw [happ]
    have h4 : (namedInstructions (packNamed skel [] steps).2.1).length ≠ 0 := by
      intro hlen
      apply hpk
      rw [h2, List.nil_append]
      exact List.eq_nil_of_length_eq_zero hlen
    have h5 : (namedInstructions steps).length
        = (namedInstructions (packNamed skel [] steps).2.1).length
          + (namedInstructions (packNamed skel [] steps).2.2).length := by
      rw [h3, List.length_append]
    omega

/-- Transaction version, 0 or legacy (builder.ts config). -/
inductive TxVersion where
  | v0
  | legacy
deriving DecidableEq

/-- Logging level (builder.ts config). -/
inductive LogLevel where
  | silent
  | minimal
  | verbose
deriving DecidableEq

/-- Priority fee level (builder.ts PRIORITY_FEE_LEVELS keys). -/
inductive PriorityLevel where
  | none
  | low
  | medium
  | high
  | veryHigh
deriving DecidableEq

/-- Compute unit limit configuration: auto or a specific limit
(builder.ts config). -/
inductive ComputeUnitLimit where
  | auto
  | limit (units : Nat)
deriving DecidableEq

/-- Retry configuration object from builder.ts autoRetry: maxAttempts and
the backoff curve (true = exponential, false = linear). -/
structure RetryConfig where
  maxAttempts : Nat
  exponential : Bool
deriving DecidableEq

/-- The autoRetry setting: false, or a retry configuration.  In builder.ts
the literal true normalizes to maxAttempts 3 with exponential backoff
inside executeWithRetry. -/
inductive AutoRetry where
  | off
  | on (cfg : RetryConfig)
deriving DecidableEq

/-- The resolved builder configuration (the private config field of
TransactionBuilder in builder.ts, lines 232-239). -/
structure ResolvedConfig where
  version : TxVersion
  hasRpc : Bool
  autoRetry : AutoRetry
  logLevel : LogLevel
  priorityLevel : PriorityLevel
  computeUnitLimit : ComputeUnitLimit
deriving DecidableEq

/-- The optional constructor argument TransactionBuilderConfig. -/
structure ConfigInput where
  version : Option TxVersion := Option.none
  hasRpc : Bool := false
  autoRetry : Option AutoRetry := Option.none
  logLevel : Option LogLevel := Option.none
  priorityLevel : Option PriorityLevel := Option.none
  computeUnitLimit : Option ComputeUnitLimit := Option.none
deriving DecidableEq

/-- The TransactionBuilder constructor defaulting (builder.ts lines
241-250): version 0, autoRetry 3 attempts exponential, logLevel minimal,
priorityLevel medium, computeUnitLimit auto. -/
def mkConfig (c : ConfigInput) : ResolvedConfig where
  version := c.version.getD .v0
  hasRpc := c.hasRpc
  autoRetry := c.autoRetry.getD (.on ⟨3, true⟩)
  logLevel := c.logLevel.getD .minimal
  priorityLevel := c.priorityLevel.getD .medium
  computeUnitLimit := c.computeUnitLimit.getD .auto

/-- Lifetime constraint from tx-builder types: blockhash lifetime or
durable nonce lifetime. -/
inductive LifetimeConstraint where
  | blockhash (blockhash : String) (lastValidBlockHeight : Nat)
  | nonce (nonce : String) (nonceAccountAddress : String) (nonceAuthorityAddress : String)
deriving DecidableEq

/-- The mutable heap of instruction arrays.  JavaScript builders alias a
mutable instructions array; the heap makes that aliasing explicit so the
clone-on-write behaviour of builder.ts is provable.  An address is an index
into the list of arrays. -/
structure Heap where
  arrays : List (List Instruction)
deriving DecidableEq

/-- Read the array at an address (a dangling address reads as empty). -/
def Heap.read (h : Heap) (r : Nat) : List Instruction :=
  h.arrays.getD r []

/-- Allocate a fresh array and return its address. -/
def Heap.alloc (h : Heap) (xs : List Instruction) : Heap × Nat :=
  (⟨h.arrays ++ [xs]⟩, h.arrays.length)

/-- Overwrite the array at an address. -/
def Heap.write (h : Heap) (r : Nat) (xs : List Instruction) : Heap :=
  ⟨h.arrays.set r xs⟩

/-- In-place push of one instruction onto the array at an address
(JavaScript array push in addInstruction, builder.ts line 304). -/
def Heap.push (h : Heap) (r : Nat) (i : Instruction) : Heap :=
  h.write r (h.read r ++ [i])

/-- In-place push of many instructions (spread push in addInstructions,
builder.ts line 315). -/
def Heap.pushMany (h : Heap) (r : Nat) (ixs : List Instruction) : Heap :=
  h.write r (h.read r ++ ixs)

/-- The observable state of a TransactionBuilder object (builder.ts lines
227-239): optional fee payer, optional lifetime, the address of its
instructions array, and the resolved config. -/
structure BuilderObj where
  feePayer : Option String
  lifetime : Option LifetimeConstraint
  instructionsRef : Nat
  config : ResolvedConfig
deriving DecidableEq

/-- TransactionBuilder.clone (builder.ts lines 792-809): a new builder with
the same config, fee payer and lifetime, and a freshly allocated copy of
the instructions array. -/
def clone (h : Heap) (b : BuilderObj) : Heap × BuilderObj :=
  let a := h.alloc (h.read b.instructionsRef)
  (a.1, { b with instructionsRef := a.2 })

/-- TransactionBuilder.setFeePayer (builder.ts lines 255-261): clone, then
set the fee payer on the clone. -/
def setFeePayer (h : Heap) (b : BuilderObj) (addr : String) : Heap × BuilderObj :=
  let c := clone h b
  (c.1, { c.2 with feePayer := some addr })

/-- TransactionBuilder.setBlockhashLifetime (builder.ts lines 266-277):
clone, then set a blockhash lifetime on the clone. -/
def setBlockhashLifetime (h : Heap) (b : BuilderObj)
    (blockhash : String) (lastValidBlockHeight : Nat) : Heap × BuilderObj :=
  let c := clone h b
  (c.1, { c.2 with lifetime := some (.blockhash blockhash lastValidBlockHeight) })

/-- TransactionBuilder.setDurableNonceLifetime (builder.ts lines 282-295):
clone, then set a durable nonce lifetime on the clone. -/
def setDurableNonceLifetime (h : Heap) (b : BuilderObj)
    (nonce nonceAccountAddress nonceAuthorityAddress : String) : Heap × BuilderObj :=
  let c := clone h b
  (c.1, { c.2 with lifetime := some (.nonce nonce nonceAccountAddress nonceAuthorityAddress) })

/-- TransactionBuilder.addInstruction (builder.ts lines 300-306): clone,
then push the instruction onto the clone's array. -/
def addInstruction (h : Heap) (b : BuilderObj) (i : Instruction) : Heap × BuilderObj :=
  let c := clone h b
  (c.1.push c.2.instructionsRef i, c.2)

/-- TransactionBuilder.addInstructions (builder.ts lines 311-317): clone,
then push all instructions onto the clone's array. -/
def addInstructions (h : Heap) (b : BuilderObj) (ixs : List Instruction) : Heap × BuilderObj :=
  let c := clone h b
  (c.1.pushMany c.2.instructionsRef ixs, c.2)

/-- The Compute Budget program address (builder.ts line 111). -/
def COMPUTE_BUDGET_PROGRAM : String := "ComputeBudget111111111111111111111111111111"

/-- PRIORITY_FEE_LEVELS (builder.ts lines 116-122), micro-lamports per
compute unit. -/
def PRIORITY_FEE_LEVELS : PriorityLevel → Nat
  | .none => 0
  | .low => 1000
  | .medium => 10000
  | .high => 50000
  | .veryHigh => 100000

/-- Little-endian byte encoding of a 32-bit value (DataView setUint32 LE in
builder.ts line 136). -/
def u32LE (n : Nat) : List Nat :=
  [n % 256, n / 2 ^ 8 % 256, n / 2 ^ 16 % 256, n / 2 ^ 24 % 256]

/-- Little-endian byte encoding of a 64-bit value (DataView setBigUint64 LE
in builder.ts line 153). -/
def u64LE (n : Nat) : List Nat :=
  [n % 256, n / 2 ^ 8 % 256, n / 2 ^ 16 % 256, n / 2 ^ 24 % 256,
   n / 2 ^ 32 % 256, n / 2 ^ 40 % 256, n / 2 ^ 48 % 256, n / 2 ^ 56 % 256]

/-- createSetComputeUnitLimitInstruction (builder.ts lines 132-143): data
is discriminator 2 followed by the unit count as u32 LE. -/
def createSetComputeUnitLimitInstruction (units : Nat) : Instruction where
  programAddress := COMPUTE_BUDGET_PROGRAM
  accounts := []
  data := 2 :: u32LE units

/-- createSetComputeUnitPriceInstruction (builder.ts lines 149-160): data
is discriminator 3 followed by the micro-lamport price as u64 LE. -/
def createSetComputeUnitPriceInstruction (microLamports : Nat) : Instruction where
  programAddress := COMPUTE_BUDGET_PROGRAM
  accounts := []
  data := 3 :: u64LE microLamports

/-- Modelled from the spec: the auto-validation step of build (builder.ts
lines 395-397) — validateTransaction and validateTransactionSize from
validation/index.ts, whose source file is not among the available sources.
Each check inspects the assembled message (lifetime plus instruction list)
and may fail, e.g. when the serialized message exceeds the size ceiling;
a result of some e is the thrown error, a result of no error means the
check passes.  Kept abstract since only the call sites are available. -/
structure Validator where
  validateTransaction : LifetimeConstraint × List Instruction → Option String
  validateTransactionSize : LifetimeConstraint × List Instruction → Option String

/-- TransactionBuilder.build (builder.ts lines 326-400): fail without a fee
payer; without a lifetime, auto-fetch a blockhash when an rpc is
configured, else fail; then append the compute-unit-limit instruction when
the limit is not auto, append the compute-unit-price instruction when the
priority level is not none, and append the caller's instructions one by one
in order; finally auto-validate the assembled message with
validateTransaction and validateTransactionSize (lines 396-397),
propagating the first validation error, before returning it.  The rpc
blockhash fetch is abstracted as the fetched argument; the returned pair is
the lifetime actually used and the message's instruction list. -/
def build (v : Validator) (h : Heap) (b : BuilderObj) (fetched : String × Nat) :
    Except String (LifetimeConstraint × List Instruction) :=
  match b.feePayer with
  | Option.none => .error "FEE_PAYER_MISSING"
  | some _ =>
    let lt? : Option LifetimeConstraint :=
      match b.lifetime with
      | some lt => some lt
      | Option.none =>
        if b.config.hasRpc then some (.blockhash fetched.1 fetched.2) else Option.none
    match lt? with
    | Option.none => .error "LIFETIME_REQUIRED"
    | some lt =>
      let msg0 : List Instruction := []
      let msg1 :=
        match b.config.computeUnitLimit with
        | .auto => msg0
        | .limit units => msg0 ++ [createSetComputeUnitLimitInstruction units]
      let msg2 :=
        match b.config.priorityLevel with
        | .none => msg1
        | p => msg1 ++ [createSetComputeUnitPriceInstruction (PRIORITY_FEE_LEVELS p)]
      let msg3 := (h.read b.instructionsRef).foldl (fun m i => m ++ [i]) msg2
      match v.validateTransaction (lt, msg3) with
      | some e => .error e
      | Option.none =>
        match v.validateTransactionSize (lt, msg3) with
        | some e => .error e
        | Option.none => .ok (lt, msg3)

/-- The retry loop body of TransactionBuilder.executeWithRetry (builder.ts
lines 732-784): attempts run from 1 to maxAttempts; a successful
sendAndConfirm returns immediately, a failed final attempt rethrows the
error verbatim, any earlier failure backs off and retries.  The submission
collaborator is abstracted as the outcome oracle: none is success, some e
is a failure carrying error e.  The ok value is the attempt number that
succeeded, i.e. the number of submission attempts performed. -/
def retryGo (outcome : Nat → Option String) (maxAttempts : Nat) (attempt : Nat) :
    Except String Nat :=
  if maxAttempts < attempt then .error "Transaction failed after retries"
  else
    match outcome attempt with
    | Option.none => .ok attempt
    | some e =>
      if attempt = maxAttempts then .error e
      else retryGo outcome maxAttempts (attempt + 1)
termination_by maxAttempts - attempt
decreasing_by
  rename_i h1 h2
  omega

/-- TransactionBuilder.executeWithRetry (builder.ts lines 717-787). -/
def executeWithRetry (outcome : Nat → Option String) (maxAttempts : Nat) :
    Except String Nat :=
  retryGo outcome maxAttempts 1

/-- The backoff delay in milliseconds before a retried attempt
(builder.ts lines 774-776). -/
def backoffDelay (exponential : Bool) (attempt : Nat) : Nat :=
  if exponential then 2 ^ (attempt - 1) * 1000 else attempt * 1000

/-- The submission tail of TransactionBuilder.execute (builder.ts lines
622-628): with autoRetry configured the retry loop runs, otherwise a single
sendAndConfirm call is made and its error propagates. -/
def executeSubmit (autoRetry : AutoRetry) (outcome : Nat → Option String) :
    Except String Nat :=
  match autoRetry with
  | .off =>
    match outcome 1 with
    | Option.none => .ok 1
    | some e => .error e
  | .on cfg => executeWithRetry outcome cfg.maxAttempts

/-- A sample instruction for concrete evaluations. -/
def exIx : Instruction where
  programAddress := "11111111111111111111111111111111"
  accounts := [1, 2]
  data := [0, 1]

/-- A sample skeleton whose trial build always succeeds and charges 100
bytes of base overhead plus 400 bytes per instruction: two instructions fit
the 1232-byte ceiling, three do not. -/
def exSkeleton : Skeleton where
  build := fun l => some (100 + 400 * l.length)

/-- A sample skeleton whose trial build fails on more than one
instruction (a malformed-construction scenario). -/
def exFailSkeleton : Skeleton where
  build := fun l => if l.length ≤ 1 then some (100 * l.length) else Option.none

/-- A sample skeleton under which even a single instruction exceeds the
ceiling. -/
def exBigSkeleton : Skeleton where
  build := fun l => some (100 + 2000 * l.length)

/-- A sample instruction-producing step. -/
def exStepA : NamedIx := ⟨"step-a", .single exIx⟩

/-- A second sample step. -/
def exStepB : NamedIx := ⟨"step-b", .single exIx⟩

/-- A third sample step. -/
def exStepC : NamedIx := ⟨"step-c", .single exIx⟩

/-- A sample plan-step list: two instruction steps around a transaction
step. -/
def exPlanSteps : List PlanStep :=
  [⟨"create", .instruction⟩, ⟨"custom-send", .transaction⟩, ⟨"finalize", .instruction⟩]

/-- A sample heap holding one builder instruction array. -/
def exHeap : Heap := ⟨[[exIx]]⟩

/-- A sample validator whose checks both pass on every message. -/
def exValidator : Validator where
  validateTransaction := fun _ => Option.none
  validateTransactionSize := fun _ => Option.none

/-- A sample builder with fee payer and lifetime set, default config,
instructions array at address 0. -/
def exBuilder : BuilderObj where
  feePayer := some "payer11111111111111111111111111111111111111"
  lifetime := some (.blockhash "hash" 50)
  instructionsRef := 0
  config := mkConfig {}

/-- The packer loop neither reorders, drops nor duplicates: packed and
overflow concatenate back to the committed prefix plus the input. -/
theorem packGo_split (skel : Skeleton) (l : List Instruction) :
    ∀ c, (packGo skel c l).1 ++ (packGo skel c l).2 = c ++ l := by
  induction l with
  | nil => intro c; simp [packGo]
  | cons i rest ih =>
    intro c
    by_cases hf : fits skel c i
    · simp [packGo, hf, ih (c ++ [i])]
    · simp [packGo, hf]

/-- The packer's committed list stays within the ceiling. -/
theorem packGo_sizeOk (skel : Skeleton) (l : List Instruction) :
    ∀ c, sizeOk skel c → sizeOk skel (packGo skel c l).1 := by
  induction l with
  | nil => intro c hc; simpa [packGo] using hc
  | cons i rest ih =>
    intro c hc
    by_cases hf : fits skel c i
    · have hfit : sizeOk skel (c ++ [i]) := by
        unfold fits at hf
        rcases hb : skel.build (c ++ [i]) with _ | n
        · rw [hb] at hf; simp at hf
        · rw [hb] at hf
          simp only [decide_eq_true_eq] at hf
          exact ⟨n, hb, hf⟩
      simpa [packGo, hf] using ih (c ++ [i]) hfit
    · simpa [packGo, hf] using hc

/-- When the packer leaves overflow, its first element did not fit against
the final packed list. -/
theorem packGo_overflow_head (skel : Skeleton) (l : List Instruction) :
    ∀ c, (packGo skel c l).2 = [] ∨
      ∃ i rest, (packGo skel c l).2 = i :: rest ∧ fits skel (packGo skel c l).1 i = false := by
  induction l with
  | nil => intro c; left; simp [packGo]
  | cons i rest ih =>
    intro c
    by_cases hf : fits skel c i
    · simpa [packGo, hf] using ih (c ++ [i])
    · right
      refine ⟨i, rest, ?_, ?_⟩ <;> simp [packGo, hf]

/-- Claim C1: for every base skeleton and ordered instruction list, the
packer returns packed and overflow with packed ++ overflow equal to the
input (no instruction reordered, dropped, duplicated or skipped over), the
serialized size of the skeleton plus packed within the ceiling (the
skeleton alone is assumed to fit), and overflow empty or its first element
not fitting on top of the packed prefix (fits is false exactly when adding
it would exceed the ceiling or the trial construction fails). -/
theorem pack_correct (skel : Skeleton) (I : List Instruction) (h0 : sizeOk skel []) :
    (pack skel I).1 ++ (pack skel I).2 = I ∧
    sizeOk skel (pack skel I).1 ∧
    ((pack skel I).2 = [] ∨
      ∃ i rest, (pack skel I).2 = i :: rest ∧ fits skel (pack skel I).1 i = false) := by
  refine ⟨?_, ?_, ?_⟩
  · simpa using packGo_split skel I []
  · exact packGo_sizeOk skel I [] h0
  · exact packGo_overflow_head skel I []

/-- Concrete check of pack_correct: under the 400-bytes-per-instruction
skeleton, packing three instructions keeps two and overflows the third. -/
theorem pack_correct_witness :
    sizeOk exSkeleton [] ∧
    ((pack exSkeleton [exIx, exIx, exIx]).1 ++ (pack exSkeleton [exIx, exIx, exIx]).2
        = [exIx, exIx, exIx] ∧
      sizeOk exSkeleton (pack exSkeleton [exIx, exIx, exIx]).1 ∧
      ((pack exSkeleton [exIx, exIx, exIx]).2 = [] ∨
        ∃ i rest, (pack exSkeleton [exIx, exIx, exIx]).2 = i :: rest ∧
          fits exSkeleton (pack exSkeleton [exIx, exIx, exIx]).1 i = false)) :=
  ⟨⟨100, rfl, by norm_num [sizeCeiling]⟩,
    pack_correct exSkeleton [exIx, exIx, exIx] ⟨100, rfl, by norm_num [sizeCeiling]⟩⟩

/-- Claim C8: the Size Estimator is conservative: whenever the trial
message construction fails, fits answers false rather than propagating the
failure, and consequently the packer reports the whole remaining input as
overflow instead of crashing when already the first trial construction
fails. -/
theorem fits_conservative (skel : Skeleton) (committed : List Instruction)
    (candidate : Instruction) (more : List Instruction)
    (h : skel.build (committed ++ [candidate]) = Option.none) :
    fits skel committed candidate = false ∧
    (committed = [] → pack skel (candidate :: more) = ([], candidate :: more)) := by
  constructor
  · simp [fits, h]
  · intro hc
    subst hc
    simp only [List.nil_append] at h
    have hf : fits skel [] candidate = false := by simp [fits, h]
    simp [pack, packGo, hf]

/-- Concrete check of fits_conservative: the failing skeleton cannot build
two instructions, so the second one never fits and packing overflows it. -/
theorem fits_conservative_witness :
    exFailSkeleton.build ([exIx] ++ [exIx]) = Option.none ∧
    (fits exFailSkeleton [exIx] exIx = false ∧
      ([exIx] = ([] : List Instruction) →
        pack exFailSkeleton [exIx] = ([], [exIx]))) :=
  ⟨by simp [exFailSkeleton], fits_conservative exFailSkeleton [exIx] exIx []
    (by simp [exFailSkeleton])⟩

/-- The greedy grouping loop emits exactly the accumulated names followed
by the remaining step names, in order. -/
theorem planBatchGo_names (l : List PlanStep) :
    ∀ acc, unitNames (planBatchGo acc l) = acc ++ stepNamesOf l := by
  induction l with
  | nil =>
    intro acc
    by_cases ha : acc = []
    · simp [planBatchGo, flushBatch, ha, unitNames, stepNamesOf]
    · simp [planBatchGo, flushBatch, ha, unitNames, stepNamesOf]
  | cons s rest ih =>
    intro acc
    cases hk : s.kind with
    | transaction =>
      have h2 := ih []
      simp only [unitNames, stepNamesOf, List.nil_append] at h2
      by_cases ha : acc = []
      · simp [planBatchGo, hk, flushBatch, ha, unitNames, stepNamesOf, h2]
      · simp [planBatchGo, hk, flushBatch, ha, unitNames, stepNamesOf, h2]
    | instruction =>
      have := ih (acc ++ [s.name])
      simp [planBatchGo, hk, this, stepNamesOf]
    | atomicGroup =>
      have := ih (acc ++ [s.name])
      simp [planBatchGo, hk, this, stepNamesOf]

/-- Claim C2: for every step sequence and strategy batch or auto,
concatenating the stepNames of the planner's units in unit order
reconstructs the original step-name sequence exactly — nothing dropped,
duplicated or reordered. -/
theorem plan_batch_auto_preserves_sequence (S : List PlanStep)
    (strat : ExecutionStrategy) (h : strat = .batch ∨ strat = .auto) :
    unitNames (plan S strat) = stepNamesOf S := by
  rcases h with h | h <;> subst h <;> simpa [plan] using planBatchGo_names S []

/-- Concrete check of plan_batch_auto_preserves_sequence on the sample
pipeline. -/
theorem plan_batch_auto_preserves_sequence_witness :
    (ExecutionStrategy.batch = ExecutionStrategy.batch
        ∨ ExecutionStrategy.batch = ExecutionStrategy.auto) ∧
    unitNames (plan exPlanSteps .batch) = stepNamesOf exPlanSteps :=
  ⟨Or.inl rfl, plan_batch_auto_preserves_sequence exPlanSteps .batch (Or.inl rfl)⟩

/-- Claim C4: the sequential strategy yields one unit per step in original
order: a singleton batch unit for each instruction-producing step, a
custom unit for each transaction step. -/
theorem plan_sequential_one_unit_per_step (S : List PlanStep) :
    (plan S .sequential).length = S.length ∧
    plan S .sequential = S.map (fun s =>
      match s.kind with
      | .transaction => ExecutionUnit.mk [s.name] .custom
      | _ => ExecutionUnit.mk [s.name] .batch) := by
  have hmap : planSequential S = S.map (fun s =>
      match s.kind with
      | .transaction => ExecutionUnit.mk [s.name] .custom
      | _ => ExecutionUnit.mk [s.name] .batch) := by
    induction S with
    | nil => simp [planSequential]
    | cons s rest ih => simp [planSequential, ih]
  constructor
  · simp [plan, hmap]
  · simpa [plan] using hmap

/-- Splitting the greedy grouping at a transaction step: the accumulated
run is flushed, the transaction step becomes its own custom unit, and the
remainder is planned independently. -/
theorem planBatchGo_split_at_transaction (t : String) (ys : List PlanStep) :
    ∀ (xs : List PlanStep) (acc : List String),
      planBatchGo acc (xs ++ PlanStep.mk t .transaction :: ys)
        = planBatchGo acc xs ++ ExecutionUnit.mk [t] .custom :: planBatchGo [] ys := by
  intro xs
  induction xs with
  | nil => intro acc; simp [planBatchGo]
  | cons s rest ih =>
    intro acc
    cases hk : s.kind with
    | transaction => simp [planBatchGo, hk, ih []]
    | instruction => simp [planBatchGo, hk, ih (acc ++ [s.name])]
    | atomicGroup => simp [planBatchGo, hk, ih (acc ++ [s.name])]

/-- Claim C5: under batch and auto a transaction step is always a unit
boundary — the plan of any sequence around a transaction step is the plan
of the left part, then the lone custom unit, then the plan of the right
part, so no batch unit spans across it; in particular the sequence
[instruction A, transaction T, instruction B] plans to exactly
batch[A], custom[T], batch[B]. -/
theorem plan_transaction_step_isolates (xs ys : List PlanStep) (t : String)
    (strat : ExecutionStrategy) (h : strat = .batch ∨ strat = .auto) :
    plan (xs ++ PlanStep.mk t .transaction :: ys) strat
      = plan xs strat ++ ExecutionUnit.mk [t] .custom :: plan ys strat ∧
    plan [PlanStep.mk "A" .instruction, PlanStep.mk "T" .transaction,
          PlanStep.mk "B" .instruction] .batch
      = [ExecutionUnit.mk ["A"] .batch, ExecutionUnit.mk ["T"] .custom,
         ExecutionUnit.mk ["B"] .batch] := by
  constructor
  · rcases h with h | h <;> subst h <;>
      simpa [plan] using planBatchGo_split_at_transaction t ys xs []
  · decide

/-- Concrete check of plan_transaction_step_isolates on the sample
pipeline: the transaction step splits the two instruction steps. -/
theorem plan_transaction_step_isolates_witness :
    (ExecutionStrategy.batch = ExecutionStrategy.batch
        ∨ ExecutionStrategy.batch = ExecutionStrategy.auto) ∧
    (plan ([PlanStep.mk "create" .instruction]
          ++ PlanStep.mk "custom-send" .transaction :: [PlanStep.mk "finalize" .instruction]) .batch
        = plan [PlanStep.mk "create" .instruction] .batch
          ++ ExecutionUnit.mk ["custom-send"] .custom
            :: plan [PlanStep.mk "finalize" .instruction] .batch ∧
      plan [PlanStep.mk "A" .instruction, PlanStep.mk "T" .transaction,
            PlanStep.mk "B" .instruction] .batch
        = [ExecutionUnit.mk ["A"] .batch, ExecutionUnit.mk ["T"] .custom,
           ExecutionUnit.mk ["B"] .batch]) :=
  ⟨Or.inl rfl, plan_transaction_step_isolates
    [PlanStep.mk "create" .instruction] [PlanStep.mk "finalize" .instruction]
    "custom-send" .batch (Or.inl rfl)⟩

/-- The spec-modelled planner agrees with the batchGroups computation of
pipeline-visualization.tsx: for step lists without atomic groups (the
visual pipeline only has instruction and transaction steps), the stepNames
of the batch units are exactly the visual batch groups. -/
theorem planBatch_matches_batchGroups (S : List PlanStep)
    (hng : ∀ s ∈ S, s.kind ≠ .atomicGroup) :
    ((plan S .batch).filterMap
        (fun u => if u.kind = .batch then some u.stepNames else Option.none))
      = batchGroups .batch S := by
  have key : ∀ (l : List PlanStep), (∀ s ∈ l, s.kind ≠ .atomicGroup) →
      ∀ acc, ((planBatchGo acc l).filterMap
          (fun u => if u.kind = .batch then some u.stepNames else Option.none))
        = batchGroupsGo acc l := by
    intro l
    induction l with
    | nil =>
      intro _ acc
      by_cases ha : acc = [] <;> simp [planBatchGo, batchGroupsGo, flushBatch, ha]
    | cons s rest ih =>
      intro hl acc
      have hs : s.kind ≠ .atomicGroup := hl s (by simp)
      have hrest : ∀ x ∈ rest, x.kind ≠ .atomicGroup := by
        intro x hx; exact hl x (by simp [hx])
      cases hk : s.kind with
      | transaction =>
        by_cases ha : acc = [] <;>
          simp [planBatchGo, batchGroupsGo, hk, flushBatch, ha, ih hrest []]
      | instruction =>
        simp [planBatchGo, batchGroupsGo, hk, ih hrest (acc ++ [s.name])]
      | atomicGroup => exact absurd hk hs
  simpa [plan, batchGroups] using key S hng []

/-- A successful incremental group trial extends the committed list by
exactly the group members, in order. -/
theorem tryGroup_some_eq (skel : Skeleton) (g : List Instruction) :
    ∀ c r, tryGroup skel c g = some r → r = c ++ g := by
  induction g with
  | nil =>
    intro c r hr
    simp [tryGroup] at hr
    simp [hr]
  | cons x xs ih =>
    intro c r hr
    by_cases hx : fits skel c x
    · simp [tryGroup, hx] at hr
      have h2 := ih (c ++ [x]) r hr
      simp [h2]
    · simp [tryGroup, hx] at hr

/-- Flattening step instructions distributes over append. -/
theorem namedInstructions_append (a b : List NamedIx) :
    namedInstructions (a ++ b) = namedInstructions a ++ namedInstructions b := by
  induction a with
  | nil => simp [namedInstructions]
  | cons x xs ih => simp [namedInstructions, ih]

/-- The unit packer splits its input into consumed steps followed by
overflow steps, and the packed output is the committed prefix plus exactly
the consumed steps' instructions. -/
theorem packNamed_split (skel : Skeleton) (l : List NamedIx) :
    ∀ c, (packNamed skel c l).2.1 ++ (packNamed skel c l).2.2 = l ∧
      (packNamed skel c l).1 = c ++ namedInstructions (packNamed skel c l).2.1 := by
  induction l with
  | nil => intro c; simp [packNamed, namedInstructions]
  | cons s rest ih =>
    intro c
    cases hs : s.item with
    | single i =>
      by_cases hf : fits skel c i
      · have h2 := ih (c ++ [i])
        simp [packNamed, hs, hf, namedInstructions, h2.1, h2.2]
      · simp [packNamed, hs, hf, namedInstructions]
    | group g =>
      cases ht : tryGroup skel c g with
      | none => simp [packNamed, hs, ht, namedInstructions]
      | some c2 =>
        have h2 := ih c2
        have hc3 := tryGroup_some_eq skel g c c2 ht
        subst hc3
        simp [packNamed, hs, ht, namedInstructions, h2.1, h2.2, List.append_assoc]

/-- Claim C6: atomic groups pack all-or-nothing.  When the incremental
trial of the whole group succeeds it extends the committed list by exactly
the group, and the packed output carries the group contiguously and in
member order right after the committed prefix; when any member fails
mid-group the partial group is discarded, the packed output is exactly the
committed prefix (none of the members appear), and the overflow starts
with the entire group, from its first instruction, followed by the rest. -/
theorem atomic_group_all_or_nothing (skel : Skeleton) (nm : String)
    (g c : List Instruction) (rest : List NamedIx) :
    (∀ c2, tryGroup skel c g = some c2 →
      c2 = c ++ g ∧
      ∃ suffix, (packNamed skel c (NamedIx.mk nm (.group g) :: rest)).1
          = (c ++ g) ++ suffix) ∧
    (tryGroup skel c g = none →
      packNamed skel c (NamedIx.mk nm (.group g) :: rest)
        = (c, [], NamedIx.mk nm (.group g) :: rest) ∧
      namedInstructions (packNamed skel c (NamedIx.mk nm (.group g) :: rest)).2.2
        = g ++ namedInstructions rest) := by
  constructor
  · intro c2 ht
    have he := tryGroup_some_eq skel g c c2 ht
    refine ⟨he, namedInstructions (packNamed skel c2 rest).2.1, ?_⟩
    have hstep : (packNamed skel c (NamedIx.mk nm (.group g) :: rest)).1
        = (packNamed skel c2 rest).1 := by
      simp [packNamed, ht]
    rw [hstep, (packNamed_split skel rest c2).2, he]
  · intro ht
    constructor
    · simp [packNamed, ht]
    · simp [packNamed, ht, namedInstructions]

/-- Concrete check of atomic_group_all_or_nothing: a two-instruction group
fits whole under the sample skeleton and lands contiguously in packed. -/
theorem atomic_group_all_or_nothing_witness :
    tryGroup exSkeleton [] [exIx, exIx] = some [exIx, exIx] ∧
    ([exIx, exIx] = [] ++ [exIx, exIx] ∧
      ∃ suffix,
        (packNamed exSkeleton []
            (NamedIx.mk "wrap-and-swap" (.group [exIx, exIx]) :: [])).1
          = ([] ++ [exIx, exIx]) ++ suffix) :=
  ⟨by decide, (atomic_group_all_or_nothing exSkeleton "wrap-and-swap"
      [exIx, exIx] [] []).1 [exIx, exIx] (by decide)⟩

/-- Claim C3 as stated is false: a unit holding a single instruction that
alone exceeds the ceiling produces non-empty overflow (the whole input),
yet under strategy auto the executor raises the fatal
oversized-single-instruction error (spec 7) instead of raising no error —
nothing is submitted and no re-planning happens. -/
theorem overflow_auto_error_counterexample :
    (packNamed exBigSkeleton [] [exStepA]).2.2 ≠ [] ∧
    runUnits exBigSkeleton .auto (fun _ => true) [.batchU [exStepA]] 0 [] []
      = ⟨[], [.stepStart "step-a"], .oversized⟩ := by
  constructor
  · decide
  · rw [runUnits.eq_def]
    norm_num [packNamed, fits, tryGroup, exBigSkeleton, exStepA, exIx, sizeCeiling,
      namedInstructions]

/-- Claim C3 (amended): for a unit whose packing produces non-empty
overflow, packing preserves the original relative order (consumed steps
followed by overflow steps reconstruct the unit); under batch the executor
stops with the fatal packing-overflow error (or the oversized error when
even the packed prefix is empty) without submitting anything and without
running later units; under auto, when the packed prefix is non-empty and
its submission succeeds, no error is raised — the packed prefix is
submitted as this unit's transaction and the overflow steps re-enter the
loop as a freshly inserted next unit ahead of the remaining units; when
the packed prefix is empty, auto likewise stops with the fatal oversized
error. -/
theorem overflow_strategy_semantics (skel : Skeleton) (submitOk : Nat → Bool)
    (steps : List NamedIx) (rest : List ExecUnit) (sig : Nat)
    (txs : List SubmittedTx) (evs : List FlowEvent)
    (hovf : (packNamed skel [] steps).2.2 ≠ []) :
    (packNamed skel [] steps).2.1 ++ (packNamed skel [] steps).2.2 = steps ∧
    runUnits skel .batch submitOk (.batchU steps :: rest) sig txs evs
      = ⟨txs, evs ++ steps.map (fun s => FlowEvent.stepStart s.name),
          if (packNamed skel [] steps).1 = [] then .oversized else .packingOverflow⟩ ∧
    ((packNamed skel [] steps).1 ≠ [] → submitOk sig = true →
      runUnits skel .auto submitOk (.batchU steps :: rest) sig txs evs
        = runUnits skel .auto submitOk
            (.batchU (packNamed skel [] steps).2.2 :: rest) (sig + 1)
            (txs ++ [⟨(packNamed skel [] steps).2.1.map NamedIx.name,
                      (packNamed skel [] steps).1⟩])
            ((evs ++ steps.map (fun s => FlowEvent.stepStart s.name))
              ++ (packNamed skel [] steps).2.1.map
                   (fun s => FlowEvent.stepComplete s.name sig))) ∧
    ((packNamed skel [] steps).1 = [] →
      runUnits skel .auto submitOk (.batchU steps :: rest) sig txs evs
        = ⟨txs, evs ++ steps.map (fun s => FlowEvent.stepStart s.name), .oversized⟩) := by
  refine ⟨(packNamed_split skel steps []).1, ?_, ?_, ?_⟩
  · rw [runUnits.eq_def]
    by_cases hpk : (packNamed skel [] steps).1 = []
    · simp [hovf, hpk]
    · simp [hovf, hpk]
  · intro hpk hsub
    rw [runUnits.eq_def]
    simp [hovf, hpk, hsub]
  · intro hpk
    rw [runUnits.eq_def]
    simp [hovf, hpk]

/-- Concrete check of overflow_strategy_semantics: three one-instruction
steps of which two fit; batch stops with packing-overflow, auto submits the
two packed steps and re-plans the third. -/
theorem overflow_strategy_semantics_witness :
    (packNamed exSkeleton [] [exStepA, exStepB, exStepC]).2.2 ≠ [] ∧
    ((packNamed exSkeleton [] [exStepA, exStepB, exStepC]).2.1
        ++ (packNamed exSkeleton [] [exStepA, exStepB, exStepC]).2.2
        = [exStepA, exStepB, exStepC] ∧
      runUnits exSkeleton .batch (fun _ => true)
          [.batchU [exStepA, exStepB, exStepC]] 0 [] []
        = ⟨[], [] ++ [exStepA, exStepB, exStepC].map (fun s => FlowEvent.stepStart s.name),
            if (packNamed exSkeleton [] [exStepA, exStepB, exStepC]).1 = []
            then .oversized else .packingOverflow⟩ ∧
      ((packNamed exSkeleton [] [exStepA, exStepB, exStepC]).1 ≠ [] →
        (fun (_ : Nat) => true) 0 = true →
        runUnits exSkeleton .auto (fun _ => true)
            [.batchU [exStepA, exStepB, exStepC]] 0 [] []
          = runUnits exSkeleton .auto (fun _ => true)
              (.batchU (packNamed exSkeleton [] [exStepA, exStepB, exStepC]).2.2 :: [])
              (0 + 1)
              ([] ++ [⟨(packNamed exSkeleton [] [exStepA, exStepB, exStepC]).2.1.map
                          NamedIx.name,
                        (packNamed exSkeleton [] [exStepA, exStepB, exStepC]).1⟩])
              (([] ++ [exStepA, exStepB, exStepC].map (fun s => FlowEvent.stepStart s.name))
                ++ (packNamed exSkeleton [] [exStepA, exStepB, exStepC]).2.1.map
                     (fun s => FlowEvent.stepComplete s.name 0))) ∧
      ((packNamed exSkeleton [] [exStepA, exStepB, exStepC]).1 = [] →
        runUnits exSkeleton .auto (fun _ => true)
            [.batchU [exStepA, exStepB, exStepC]] 0 [] []
          = ⟨[], [] ++ [exStepA, exStepB, exStepC].map (fun s => FlowEvent.stepStart s.name),
              .oversized⟩)) :=
  ⟨by decide, overflow_strategy_semantics exSkeleton (fun _ => true)
      [exStepA, exStepB, exStepC] [] 0 [] [] (by decide)⟩

/-- When every attempt fails, the retry loop surfaces the (verbatim) error
of the final attempt after exhausting maxAttempts. -/
theorem retryGo_allFail (outcome : Nat → Option String) (e : String)
    (hall : ∀ a, outcome a = some e) (maxAttempts : Nat) :
    ∀ attempt, attempt ≤ maxAttempts → retryGo outcome maxAttempts attempt = .error e := by
  have key : ∀ k attempt, maxAttempts - attempt = k → attempt ≤ maxAttempts →
      retryGo outcome maxAttempts attempt = .error e := by
    intro k
    induction k with
    | zero =>
      intro attempt hk hle
      have heq : attempt = maxAttempts := by omega
      subst heq
      rw [retryGo]
      simp [hall]
    | succ m ih =>
      intro attempt hk hle
      have hlt : attempt < maxAttempts := by omega
      have hrec := ih (attempt + 1) (by omega) (by omega)
      rw [retryGo]
      simp only [hall attempt]
      rw [if_neg (by omega)]
      rw [if_neg (by omega)]
      exact hrec
  intro attempt hle
  exact key (maxAttempts - attempt) attempt rfl hle

/-- Claim C7 as stated is false: the TransactionBuilder's execute path does
perform repeated submission attempts of its own.  With the constructor's
default configuration (autoRetry 3 attempts, exponential backoff) and a
collaborator failing once and then succeeding, the submission is attempted
twice — the retry loop re-submits instead of surfacing the first error. -/
theorem no_retry_counterexample :
    (mkConfig {}).autoRetry = .on ⟨3, true⟩ ∧
    executeSubmit ((mkConfig {}).autoRetry)
        (fun a => if a = 1 then some "node unhealthy" else Option.none) = .ok 2 := by
  refine ⟨rfl, ?_⟩
  have h1 : (mkConfig {}).autoRetry = .on ⟨3, true⟩ := rfl
  rw [h1]
  show executeWithRetry _ 3 = .ok 2
  rw [executeWithRetry, retryGo]
  norm_num
  rw [retryGo]
  norm_num

/-- Claim C7 (amended): on a submission failure the executor fires
onStepError for every step of the failing unit (none of them completed) and
stops without submitting anything further, for batch units and custom units
alike, and the collaborator's error is surfaced verbatim; however the
submission is retried inside TransactionBuilder.execute whenever autoRetry
is configured (the default configuration retries): with autoRetry off
exactly one attempt is made and its error surfaces directly, and with
autoRetry on, when every attempt fails the final attempt's error surfaces
after the loop exhausts maxAttempts. -/
theorem submission_failure_semantics (skel : Skeleton) (submitOk : Nat → Bool)
    (steps : List NamedIx) (n : String) (rest : List ExecUnit) (sig : Nat)
    (txs : List SubmittedTx) (evs : List FlowEvent)
    (outcome : Nat → Option String) (e : String) (cfg : RetryConfig)
    (hovf : (packNamed skel [] steps).2.2 = [])
    (hfail : submitOk sig = false)
    (hall : ∀ a, outcome a = some e)
    (hmax : 1 ≤ cfg.maxAttempts) :
    runUnits skel .auto submitOk (.batchU steps :: rest) sig txs evs
      = ⟨txs, (evs ++ steps.map (fun s => FlowEvent.stepStart s.name))
            ++ steps.map (fun s => FlowEvent.stepError s.name), .submissionFailed⟩ ∧
    runUnits skel .auto submitOk (.customU n :: rest) sig txs evs
      = ⟨txs, evs ++ [.stepStart n, .stepError n], .submissionFailed⟩ ∧
    executeSubmit .off outcome = .error e ∧
    executeSubmit (.on cfg) outcome = .error e := by
  refine ⟨?_, ?_, ?_, ?_⟩
  · rw [runUnits.eq_def]
    simp [hovf, hfail]
  · rw [runUnits.eq_def]
    simp [hfail]
  · simp [executeSubmit, hall 1]
  · show executeWithRetry outcome cfg.maxAttempts = .error e
    rw [executeWithRetry]
    exact retryGo_allFail outcome e hall cfg.maxAttempts 1 hmax

/-- Concrete check of submission_failure_semantics: one cleanly packing
step whose submission fails, and a collaborator that always fails with the
same error. -/
theorem submission_failure_semantics_witness :
    ((packNamed exSkeleton [] [exStepA]).2.2 = [] ∧
      (fun (_ : Nat) => false) 0 = false ∧
      (∀ a, (fun (_ : Nat) => some "node unhealthy") a = some "node unhealthy") ∧
      1 ≤ (3 : Nat)) ∧
    (runUnits exSkeleton .auto (fun _ => false) [.batchU [exStepA]] 0 [] []
        = ⟨[], (([] : List FlowEvent) ++ [exStepA].map (fun s => FlowEvent.stepStart s.name))
              ++ [exStepA].map (fun s => FlowEvent.stepError s.name), .submissionFailed⟩ ∧
      runUnits exSkeleton .auto (fun _ => false) [.customU "custom-send"] 0 [] []
        = ⟨[], [] ++ [.stepStart "custom-send", .stepError "custom-send"], .submissionFailed⟩ ∧
      executeSubmit .off (fun _ => some "node unhealthy") = .error "node unhealthy" ∧
      executeSubmit (.on ⟨3, true⟩) (fun _ => some "node unhealthy")
        = .error "node unhealthy") := by
  refine ⟨⟨by decide, rfl, fun a => rfl, by norm_num⟩, ?_⟩
  have h2 := submission_failure_semantics exSkeleton (fun _ => false) [exStepA]
    "custom-send" [] 0 [] [] (fun _ => some "node unhealthy") "node unhealthy"
    ⟨3, true⟩ (by decide) rfl (fun a => rfl) (by norm_num)
  exact ⟨h2.1, h2.2.1, h2.2.2.1, h2.2.2.2⟩

/-- Overwriting one address leaves every other address unchanged. -/
theorem Heap.read_write_ne (h : Heap) (r r2 : Nat) (xs : List Instruction)
    (hne : r ≠ r2) : (h.write r xs).read r2 = h.read r2 := by
  simp only [Heap.write, Heap.read, List.getD_eq_getElem?_getD]
  rw [List.getElem?_set_ne hne]

/-- Reading back a written (valid) address yields the written array. -/
theorem Heap.read_write_self (h : Heap) (r : Nat) (xs : List Instruction)
    (hr : r < h.arrays.length) : (h.write r xs).read r = xs := by
  simp only [Heap.write, Heap.read, List.getD_eq_getElem?_getD]
  rw [List.getElem?_set_eq_of_lt xs hr]
  rfl

/-- clone allocates a fresh address holding a copy of the receiver's
instructions, leaves the receiver's address readable and unchanged, and
copies every scalar field. -/
theorem clone_spec (h : Heap) (b : BuilderObj)
    (hr : b.instructionsRef < h.arrays.length) :
    (clone h b).1.read b.instructionsRef = h.read b.instructionsRef ∧
    (clone h b).1.read (clone h b).2.instructionsRef = h.read b.instructionsRef ∧
    (clone h b).2.instructionsRef ≠ b.instructionsRef ∧
    (clone h b).2.instructionsRef < (clone h b).1.arrays.length ∧
    (clone h b).2.feePayer = b.feePayer ∧
    (clone h b).2.lifetime = b.lifetime ∧
    (clone h b).2.config = b.config := by
  refine ⟨?_, ?_, ?_, ?_, rfl, rfl, rfl⟩
  · simp only [clone, Heap.alloc, Heap.read, List.getD_eq_getElem?_getD]
    rw [List.getElem?_append_left hr]
  · simp only [clone, Heap.alloc, Heap.read, List.getD_eq_getElem?_getD]
    rw [List.getElem?_concat_length]
    rfl
  · simp only [clone, Heap.alloc]
    omega
  · simp only [clone, Heap.alloc, List.length_append, List.length_cons, List.length_nil]
    omega

/-- Claim C9: every configuration method returns a fresh cloned builder and
leaves the receiver unchanged.  After addInstruction the receiver's
instruction array reads exactly as before while the returned builder's
fresh array is the receiver's list with the instruction appended, the
returned builder's other fields match the receiver's, and the same
read-invariance holds for addInstructions, setFeePayer,
setBlockhashLifetime and setDurableNonceLifetime (which set only their own
field on the clone). -/
theorem builder_methods_immutable (h : Heap) (b : BuilderObj) (i : Instruction)
    (ixs : List Instruction) (addr bh nonce acct auth : String)
    (lastValid : Nat) (hr : b.instructionsRef < h.arrays.length) :
    ((addInstruction h b i).1.read b.instructionsRef = h.read b.instructionsRef ∧
      (addInstruction h b i).2.instructionsRef ≠ b.instructionsRef ∧
      (addInstruction h b i).2.feePayer = b.feePayer ∧
      (addInstruction h b i).2.lifetime = b.lifetime ∧
      (addInstruction h b i).2.config = b.config ∧
      (addInstruction h b i).1.read (addInstruction h b i).2.instructionsRef
        = h.read b.instructionsRef ++ [i]) ∧
    ((addInstructions h b ixs).1.read b.instructionsRef = h.read b.instructionsRef ∧
      (addInstructions h b ixs).1.read (addInstructions h b ixs).2.instructionsRef
        = h.read b.instructionsRef ++ ixs) ∧
    ((setFeePayer h b addr).1.read b.instructionsRef = h.read b.instructionsRef ∧
      (setFeePayer h b addr).2.feePayer = some addr ∧
      (setFeePayer h b addr).2.lifetime = b.lifetime ∧
      (setFeePayer h b addr).1.read (setFeePayer h b addr).2.instructionsRef
        = h.read b.instructionsRef) ∧
    ((setBlockhashLifetime h b bh lastValid).1.read b.instructionsRef
        = h.read b.instructionsRef ∧
      (setBlockhashLifetime h b bh lastValid).2.feePayer = b.feePayer ∧
      (setBlockhashLifetime h b bh lastValid).2.lifetime
        = some (.blockhash bh lastValid)) ∧
    ((setDurableNonceLifetime h b nonce acct auth).1.read b.instructionsRef
        = h.read b.instructionsRef ∧
      (setDurableNonceLifetime h b nonce acct auth).2.lifetime
        = some (.nonce nonce acct auth)) := by
  obtain ⟨hc1, hc2, hc3, hc4, hc5, hc6, hc7⟩ := clone_spec h b hr
  refine ⟨⟨?_, ?_, ?_, ?_, ?_, ?_⟩, ⟨?_, ?_⟩, ⟨?_, rfl, ?_, ?_⟩, ⟨?_, ?_, rfl⟩, ⟨?_, rfl⟩⟩
  · show ((clone h b).1.push (clone h b).2.instructionsRef i).read b.instructionsRef
      = h.read b.instructionsRef
    rw [Heap.push, Heap.read_write_ne _ _ _ _ hc3, hc1]
  · exact hc3
  · exact hc5
  · exact hc6
  · exact hc7
  · show ((clone h b).1.push (clone h b).2.instructionsRef i).read (clone h b).2.instructionsRef
      = h.read b.instructionsRef ++ [i]
    rw [Heap.push, Heap.read_write_self _ _ _ hc4, hc2]
  · show ((clone h b).1.pushMany (clone h b).2.instructionsRef ixs).read b.instructionsRef
      = h.read b.instructionsRef
    rw [Heap.pushMany, Heap.read_write_ne _ _ _ _ hc3, hc1]
  · show ((clone h b).1.pushMany (clone h b).2.instructionsRef ixs).read
        (clone h b).2.instructionsRef = h.read b.instructionsRef ++ ixs
    rw [Heap.pushMany, Heap.read_write_self _ _ _ hc4, hc2]
  · exact hc1
  · exact hc6
  · exact hc2
  · exact hc1
  · exact hc5
  · exact hc1

/-- Concrete check of builder_methods_immutable on the sample heap and
builder: the receiver at address 0 still reads its original one-element
array after every method. -/
theorem builder_methods_immutable_witness :
    (0 : Nat) < exHeap.arrays.length ∧
    ((addInstruction exHeap exBuilder exIx).1.read exBuilder.instructionsRef
        = exHeap.read exBuilder.instructionsRef ∧
      (addInstruction exHeap exBuilder exIx).2.instructionsRef ≠ exBuilder.instructionsRef ∧
      (addInstruction exHeap exBuilder exIx).2.feePayer = exBuilder.feePayer ∧
      (addInstruction exHeap exBuilder exIx).2.lifetime = exBuilder.lifetime ∧
      (addInstruction exHeap exBuilder exIx).2.config = exBuilder.config ∧
      (addInstruction exHeap exBuilder exIx).1.read
          (addInstruction exHeap exBuilder exIx).2.instructionsRef
        = exHeap.read exBuilder.instructionsRef ++ [exIx]) :=
  ⟨by decide, ((builder_methods_immutable exHeap exBuilder exIx [exIx]
      "payer2" "hash2" "nonce" "nacct" "nauth" 7 (by decide)).1)⟩

/-- Appending elements one at a time (the appendTransactionMessageInstruction
loop) is the same as appending the whole list. -/
theorem foldl_append_eq (l acc : List Instruction) :
    l.foldl (fun m i => m ++ [i]) acc = acc ++ l := by
  induction l generalizing acc with
  | nil => simp
  | cons x xs ih =>
    rw [List.foldl_cons, ih (acc ++ [x])]
    simp

/-- Claim C10: with fee payer and lifetime set, whenever build returns a
message its instruction list is the SetComputeUnitLimit instruction exactly
when the compute unit limit is not auto, then the SetComputeUnitPrice
instruction exactly when the priority level is not none, then all
caller-added instructions in insertion order — compute-budget instructions
always precede the user's; build does return that message whenever the
auto-validation of the assembled message passes (and otherwise propagates
the validation error); and the constructor defaults are priorityLevel
medium (so the price instruction is present by default) and
computeUnitLimit auto. -/
theorem build_instruction_layout (v : Validator) (h : Heap) (b : BuilderObj)
    (fetched : String × Nat)
    (hfp : b.feePayer ≠ Option.none) (hlt : b.lifetime ≠ Option.none) :
    ∃ lt msg, b.lifetime = some lt ∧
      msg = (match b.config.computeUnitLimit with
             | .auto => []
             | .limit units => [createSetComputeUnitLimitInstruction units]) ++
            ((match b.config.priorityLevel with
             | .none => []
             | p => [createSetComputeUnitPriceInstruction (PRIORITY_FEE_LEVELS p)]) ++
            h.read b.instructionsRef) ∧
      (∀ lt2 msg2, build v h b fetched = .ok (lt2, msg2) → lt2 = lt ∧ msg2 = msg) ∧
      (v.validateTransaction (lt, msg) = Option.none →
        v.validateTransactionSize (lt, msg) = Option.none →
        build v h b fetched = .ok (lt, msg)) ∧
      (∀ e, v.validateTransaction (lt, msg) = some e →
        build v h b fetched = .error e) ∧
      (mkConfig {}).priorityLevel = .medium ∧
      (mkConfig {}).computeUnitLimit = .auto := by
  cases hfpv : b.feePayer with
  | none => exact absurd hfpv hfp
  | some fp =>
    cases hltv : b.lifetime with
    | none => exact absurd hltv hlt
    | some lt =>
      have hbuild : build v h b fetched =
          (match v.validateTransaction (lt,
              (match b.config.computeUnitLimit with
               | .auto => []
               | .limit units => [createSetComputeUnitLimitInstruction units]) ++
              ((match b.config.priorityLevel with
               | .none => []
               | p => [createSetComputeUnitPriceInstruction (PRIORITY_FEE_LEVELS p)]) ++
              h.read b.instructionsRef)) with
           | some e => Except.error e
           | Option.none =>
             match v.validateTransactionSize (lt,
                 (match b.config.computeUnitLimit with
                  | .auto => []
                  | .limit units => [createSetComputeUnitLimitInstruction units]) ++
                 ((match b.config.priorityLevel with
                  | .none => []
                  | p => [createSetComputeUnitPriceInstruction (PRIORITY_FEE_LEVELS p)]) ++
                 h.read b.instructionsRef)) with
             | some e => Except.error e
             | Option.none => Except.ok (lt,
                 (match b.config.computeUnitLimit with
                  | .auto => []
                  | .limit units => [createSetComputeUnitLimitInstruction units]) ++
                 ((match b.config.priorityLevel with
                  | .none => []
                  | p => [createSetComputeUnitPriceInstruction (PRIORITY_FEE_LEVELS p)]) ++
                 h.read b.instructionsRef))) := by
        simp only [build, hfpv, hltv]
        rw [foldl_append_eq]
        cases b.config.computeUnitLimit <;> cases b.config.priorityLevel <;> simp
      refine ⟨lt, _, rfl, rfl, ?_, ?_, ?_, rfl, rfl⟩
      · intro lt2 msg2 hok
        rw [hbuild] at hok
        cases hv1 : v.validateTransaction (lt, _) with
        | some e => rw [hv1] at hok; exact absurd hok (by simp)
        | none =>
          rw [hv1] at hok
          cases hv2 : v.validateTransactionSize (lt, _) with
          | some e => rw [hv2] at hok; exact absurd hok (by simp)
          | none =>
            rw [hv2] at hok
            simp only [Except.ok.injEq, Prod.mk.injEq] at hok
            exact ⟨hok.1.symm, hok.2.symm⟩
      · intro hv1 hv2
        rw [hbuild, hv1, hv2]
      · intro e hv1
        rw [hbuild, hv1]

/-- Concrete check of build_instruction_layout: the sample builder (default
config) with the always-passing validator builds the price instruction
followed by its one user instruction. -/
theorem build_instruction_layout_witness :
    exBuilder.feePayer ≠ Option.none ∧ exBuilder.lifetime ≠ Option.none ∧
    ∃ lt msg, exBuilder.lifetime = some lt ∧
      msg = (match exBuilder.config.computeUnitLimit with
             | .auto => []
             | .limit units => [createSetComputeUnitLimitInstruction units]) ++
            ((match exBuilder.config.priorityLevel with
             | .none => []
             | p => [createSetComputeUnitPriceInstruction (PRIORITY_FEE_LEVELS p)]) ++
            exHeap.read exBuilder.instructionsRef) ∧
      (∀ lt2 msg2, build exValidator exHeap exBuilder ("h2", 9) = .ok (lt2, msg2) →
        lt2 = lt ∧ msg2 = msg) ∧
      (exValidator.validateTransaction (lt, msg) = Option.none →
        exValidator.validateTransactionSize (lt, msg) = Option.none →
        build exValidator exHeap exBuilder ("h2", 9) = .ok (lt, msg)) ∧
      (∀ e, exValidator.validateTransaction (lt, msg) = some e →
        build exValidator exHeap exBuilder ("h2", 9) = .error e) ∧
      (mkConfig {}).priorityLevel = .medium ∧
      (mkConfig {}).computeUnitLimit = .auto :=
  ⟨by decide, by decide,
    build_instruction_layout exValidator exHeap exBuilder ("h2", 9)
      (by decide) (by decide)⟩

end Pipeit
